import Mathlib

/-!
Verification of `ig_unfollow/unfollow_check.py`.

Strings are modelled as lists of Unicode code points (`List Nat`);
`codes` converts a Lean string literal to that representation.  Python's
`str.strip()` is modelled over the ASCII whitespace code points, and
`str.lower()` over the ASCII letters — every input appearing in the
claims is ASCII, so the model is faithful on them.  Parsed JSON values
are modelled by the inductive type `Json`, with objects as key/value
association lists in insertion order (Python dicts preserve insertion
order).
-/

/-- Code points of a string literal. -/
def codes (s : String) : List Nat := s.data.map Char.toNat

/-- ASCII whitespace, as stripped by Python's `str.strip()`. -/
def isSpaceCode (c : Nat) : Bool :=
  c == 32 || c == 9 || c == 10 || c == 11 || c == 12 || c == 13

/-- ASCII lowercasing of one code point, as `str.lower()` does on ASCII. -/
def lowerCode (c : Nat) : Nat := if 65 ≤ c ∧ c ≤ 90 then c + 32 else c

/-- The code point of the character at-sign. -/
def atCode : Nat := 64

/-- Python `s.strip()`: drop leading and trailing whitespace. -/
def pyStrip (l : List Nat) : List Nat :=
  ((l.dropWhile isSpaceCode).reverse.dropWhile isSpaceCode).reverse

/-- Python `s.lstrip("@")`: drop ALL leading at-signs. -/
def pyLstripAt (l : List Nat) : List Nat := l.dropWhile (fun c => c == atCode)

/-- Python `s.lower()` (ASCII fragment). -/
def pyLower (l : List Nat) : List Nat := l.map lowerCode

/-- Embeds `_normalize_username` (unfollow_check.py line 46):
`username.strip().lstrip("@").lower()`. -/
def normalize_username (l : List Nat) : List Nat := pyLower (pyLstripAt (pyStrip l))

/-- A parsed JSON document.  Objects are association lists in insertion
order, mirroring Python dicts. -/
inductive Json where
  | null : Json
  | bool : Bool → Json
  | num : Int → Json
  | str : List Nat → Json
  | arr : List Json → Json
  | obj : List (List Nat × Json) → Json

/-- Python `isinstance(x, dict)`. -/
def Json.isDict : Json → Bool
  | .obj _ => true
  | _ => false

/-- Python `isinstance(x, list)`. -/
def Json.isList : Json → Bool
  | .arr _ => true
  | _ => false

/-- Python `d.get(k)`: look a key up in an object's fields (`none` when
absent, like Python's `None`). -/
def dictGet (fields : List (List Nat × Json)) (k : List Nat) : Option Json :=
  (fields.find? (fun p => p.1 == k)).map Prod.snd

/-- Does an optional value hold a JSON list?  (Python
`isinstance(value, list)` applied to a `d.get(k)` result.) -/
def listValued : Option Json → Bool
  | some (.arr _) => true
  | _ => false

/-- The priority key list of `_extract_candidates`
(unfollow_check.py lines 25-30). -/
def commonKeys : List (List Nat) :=
  [codes "relationships_following", codes "relationships_followers",
   codes "following", codes "followers"]

/-- The key-probing loop of `_extract_candidates` (lines 31-34): return
the value of the first key in `ks` that maps to a JSON list. -/
def probeKeys (fields : List (List Nat × Json)) : List (List Nat) → Option (List Json)
  | [] => none
  | k :: ks =>
    match dictGet fields k with
    | some (.arr l) => some l
    | _ => probeKeys fields ks

/-- The fallback loop of `_extract_candidates` (lines 37-39): the first
list-valued entry of the object, in insertion order. -/
def firstListValue : List (List Nat × Json) → Option (List Json)
  | [] => none
  | (_, .arr l) :: _ => some l
  | _ :: rest => firstListValue rest

/-- Embeds `_extract_candidates` (unfollow_check.py lines 19-41). -/
def extract_candidates : Json → List Json
  | .arr items => items.filter Json.isDict
  | .obj fields =>
    match probeKeys fields commonKeys with
    | some l => l.filter Json.isDict
    | none =>
      match firstListValue fields with
      | some l => l.filter Json.isDict
      | none => []
  | _ => []

/-- The acceptance test `isinstance(value, str) and value.strip()`
applied to a `d.get(k)` result: a string with non-empty trimmed
content. -/
def acceptedStr : Option Json → Option (List Nat)
  | some (.str v) => if pyStrip v = [] then none else some v
  | _ => none

/-- The preferred path of the per-record loop in `load_usernames`
(lines 61-68): the `value` field of the first element of a non-empty
`string_list_data` list, when that element is a dict and the value is a
string with non-empty trimmed content. -/
def preferredValue (fields : List (List Nat × Json)) : Option (List Nat) :=
  match dictGet fields (codes "string_list_data") with
  | some (.arr (first :: _)) =>
    match first with
    | .obj ffields => acceptedStr (dictGet ffields (codes "value"))
    | _ => none
  | _ => none

/-- The flat-field fallback of the per-record loop (lines 70-74):
`username` then `value`, first accepted string wins. -/
def flatValue (fields : List (List Nat × Json)) : Option (List Nat) :=
  match acceptedStr (dictGet fields (codes "username")) with
  | some u => some u
  | none => acceptedStr (dictGet fields (codes "value"))

/-- One iteration of the per-record loop of `load_usernames`
(lines 60-74): the raw (pre-normalization) username a record
contributes, if any. -/
def recordUsername : Json → Option (List Nat)
  | .obj fields =>
    match preferredValue fields with
    | some v => some v
    | none => flatValue fields
  | _ => none

/-- Embeds `load_usernames` (lines 49-76) on an already-parsed
document: the set of normalized usernames of all candidate records. -/
def load_usernames (doc : Json) : Finset (List Nat) :=
  (((extract_candidates doc).filterMap recordUsername).map normalize_username).toFinset

/-- Embeds line 104 of `main`:
`not_following_back = sorted(following - followers)` — set difference
then ascending lexicographic sort. -/
def compute_not_following_back (following followers : Finset (List Nat)) :
    List (List Nat) :=
  (following \ followers).sort (· ≤ ·)

/-- The fatal message for a missing followers.json (lines 92-95). -/
def missingFollowersMsg : List Nat :=
  codes "Missing followers.json. Put it next to this script."

/-- The fatal message for a missing following.json (lines 96-99). -/
def missingFollowingMsg : List Nat :=
  codes "Missing following.json. Put it next to this script."

/-- Embeds `main` (lines 88-113) over an abstract file system: each
input file is `none` when absent and `some doc` when present with
parsed contents `doc`.  `Except.error msg` models `raise SystemExit(msg)`
(a non-zero process exit carrying the message, with no output file
written); `Except.ok rows` models a run that writes exactly `rows` to
the output file. -/
def mainModel (followersFile followingFile : Option Json) :
    Except (List Nat) (List (List Nat)) :=
  match followersFile with
  | none => .error missingFollowersMsg
  | some fdoc =>
    match followingFile with
    | none => .error missingFollowingMsg
    | some gdoc =>
      .ok (compute_not_following_back (load_usernames gdoc) (load_usernames fdoc))

/-- Follows the words of claim C1: trim leading/trailing whitespace,
strip AT MOST ONE leading at-sign, lowercase. -/
def normalizeAtMostOneAt (l : List Nat) : List Nat :=
  pyLower
    (match pyStrip l with
     | [] => []
     | c :: rest => if c = atCode then rest else c :: rest)

/-- Trim leading whitespace, by plain structural recursion. -/
def trimLeadingWs : List Nat → List Nat
  | [] => []
  | c :: rest => if isSpaceCode c then trimLeadingWs rest else c :: rest

/-- Strip every leading at-sign, by plain structural recursion. -/
def dropLeadingAts : List Nat → List Nat
  | [] => []
  | c :: rest => if c = atCode then dropLeadingAts rest else c :: rest

/-- The amended normalization described by the spec's words with "at
most one" corrected to "all": trim leading and trailing whitespace,
strip ALL leading at-signs, lowercase every letter.  Written
independently of the pipeline in the code. -/
def specNormalizeAllAts (l : List Nat) : List Nat :=
  (dropLeadingAts (((trimLeadingWs l).reverse |> trimLeadingWs).reverse)).map lowerCode

/-- Lowercasing a code point is idempotent. -/
theorem lowerCode_idem (c : Nat) : lowerCode (lowerCode c) = lowerCode c := by
  unfold lowerCode
  split_ifs <;> omega

/-- Lowercasing never produces the at-sign from another code point. -/
theorem lowerCode_eq_atCode (c : Nat) (h : lowerCode c = atCode) : c = atCode := by
  unfold lowerCode atCode at *
  split_ifs at h <;> omega

/-- The head of `dropWhile p l`, when present, fails `p`. -/
theorem head_of_dropWhile_not (p : Nat → Bool) :
    ∀ l : List Nat, ∀ c : Nat, (l.dropWhile p).head? = some c → p c = false := by
  intro l
  induction l with
  | nil => intro c h; simp [List.dropWhile] at h
  | cons a l ih =>
    intro c h
    by_cases ha : p a
    · rw [List.dropWhile_cons_of_pos ha] at h
      exact ih c h
    · rw [List.dropWhile_cons_of_neg ha] at h
      simp only [List.head?_cons, Option.some.injEq] at h
      subst h
      simpa using ha

theorem trimLeadingWs_eq_dropWhile (l : List Nat) :
    trimLeadingWs l = l.dropWhile isSpaceCode := by
  induction l with
  | nil => rfl
  | cons c rest ih =>
    by_cases h : isSpaceCode c
    · rw [List.dropWhile_cons_of_pos h]
      simpa [trimLeadingWs, h] using ih
    · rw [List.dropWhile_cons_of_neg h]
      simp [trimLeadingWs, h]

theorem dropLeadingAts_eq_dropWhile (l : List Nat) :
    dropLeadingAts l = l.dropWhile (fun c => c == atCode) := by
  induction l with
  | nil => rfl
  | cons c rest ih =>
    by_cases h : c = atCode
    · rw [List.dropWhile_cons_of_pos (by simpa using h)]
      simpa [dropLeadingAts, h] using ih
    · rw [List.dropWhile_cons_of_neg (by simpa using h)]
      simp [dropLeadingAts, h]

/-- C1: the claim says at most one leading at-sign is stripped, but the
code's `lstrip("@")` strips them all: on `" @@User "` the code yields
`"user"` while the claimed normalization yields `"@user"`. -/
theorem C1_counterexample :
    normalize_username (codes " @@User ") = codes "user" ∧
    normalizeAtMostOneAt (codes " @@User ") = codes "@user" ∧
    normalize_username (codes " @@User ") ≠ normalizeAtMostOneAt (codes " @@User ") :=
  ⟨by decide, by decide, by decide⟩

/-- C1 (amended): for every string `s`, normalization returns `s` with
leading/trailing whitespace trimmed, ALL leading at-sign characters
stripped, and all letters lowercased; in particular
`normalize " @User " = normalize "user" = normalize "USER"`. -/
theorem C1_normalization (s : List Nat) :
    normalize_username s = specNormalizeAllAts s ∧
    normalize_username (codes " @User ") = normalize_username (codes "user") ∧
    normalize_username (codes "user") = normalize_username (codes "USER") := by
  refine ⟨?_, by decide, by decide⟩
  unfold normalize_username specNormalizeAllAts pyLower pyLstripAt pyStrip
  simp only [trimLeadingWs_eq_dropWhile, dropLeadingAts_eq_dropWhile]

/-- C2: normalization is NOT idempotent: stripping all leading at-signs
can expose whitespace that only a second application trims;
`normalize "@ a" = " a"` but `normalize " a" = "a"`. -/
theorem C2_counterexample :
    normalize_username (codes "@ a") = codes " a" ∧
    normalize_username (normalize_username (codes "@ a")) = codes "a" ∧
    normalize_username (normalize_username (codes "@ a")) ≠
      normalize_username (codes "@ a") :=
  ⟨by decide, by decide, by decide⟩

/-- C2 (amended): normalization is idempotent on every string whose
normalized form carries no leading or trailing whitespace (that is,
whenever `normalize s` equals its own trim) — in general a second
application can still trim whitespace exposed by at-sign stripping. -/
theorem C2_idempotent_on_trimmed (s : List Nat)
    (h : pyStrip (normalize_username s) = normalize_username s) :
    normalize_username (normalize_username s) = normalize_username s := by
  set t := normalize_username s with ht
  have hrep : t = List.map lowerCode ((pyStrip s).dropWhile (fun x => x == atCode)) := rfl
  cases hd : (pyStrip s).dropWhile (fun x => x == atCode) with
  | nil =>
    have hnil : t = [] := by rw [hrep, hd]; rfl
    rw [hnil]
    decide
  | cons c0 rest0 =>
    have hq : (fun x => x == atCode) c0 = false :=
      head_of_dropWhile_not _ (pyStrip s) c0 (by rw [hd]; rfl)
    have hc0 : c0 ≠ atCode := by simpa using hq
    have ht2 : t = lowerCode c0 :: List.map lowerCode rest0 := by rw [hrep, hd]; rfl
    have hstep : normalize_username t = pyLower (pyLstripAt t) := by
      unfold normalize_username
      rw [h]
    have hat : lowerCode c0 ≠ atCode := fun hEq => hc0 (lowerCode_eq_atCode c0 hEq)
    have hls : pyLstripAt t = t := by
      rw [ht2]
      unfold pyLstripAt
      rw [List.dropWhile_cons_of_neg (by simpa using hat)]
    have hlow : pyLower t = t := by
      rw [hrep]
      unfold pyLower
      rw [List.map_map]
      apply List.map_congr_left
      intro a _
      simpa using lowerCode_idem a
    rw [hstep, hls, hlow]

/-- Witness for `C2_idempotent_on_trimmed` at `" @User "`. -/
theorem C2_idempotent_on_trimmed_witness :
    normalize_username (normalize_username (codes " @User ")) =
      normalize_username (codes " @User ") :=
  C2_idempotent_on_trimmed (codes " @User ") (by decide)

/-- C3: the claim lets ANY field holding a non-empty sequence of
mappings trigger the preferred path, but the code consults only the
field named `string_list_data`.  The record `{"other": [{"value":
"x"}]}` satisfies the claim's premise — its field `other` holds a
non-empty sequence of mappings whose first element has the string field
`value` = "x" with non-empty trimmed content — yet the code extracts no
username from it (instead of the claimed "x"). -/
theorem C3_counterexample :
    dictGet [(codes "other", .arr [.obj [(codes "value", .str (codes "x"))]])]
        (codes "other")
      = some (.arr [.obj [(codes "value", .str (codes "x"))]]) ∧
    pyStrip (codes "x") ≠ [] ∧
    recordUsername
        (.obj [(codes "other", .arr [.obj [(codes "value", .str (codes "x"))]])])
      = none :=
  ⟨rfl, by decide, rfl⟩

/-- C3 (amended): for every record, if its field `string_list_data`
holds a non-empty sequence, only the FIRST element of that sequence is
inspected; if that element is a mapping with a string field `value` of
non-empty trimmed content, that string is the record's username and the
flat-field fallback is not consulted.  Only when this preferred path
yields nothing are the flat fields `username` then `value` checked in
that order, taking the first that is a string with non-empty trimmed
content; otherwise the record contributes no username. -/
theorem C3_record_username (fields : List (List Nat × Json)) :
    (∀ first rest ffields v,
        dictGet fields (codes "string_list_data") = some (.arr (first :: rest)) →
        first = .obj ffields →
        dictGet ffields (codes "value") = some (.str v) →
        pyStrip v ≠ [] →
        recordUsername (.obj fields) = some v) ∧
    (preferredValue fields = none →
        recordUsername (.obj fields) = flatValue fields) ∧
    (∀ u, dictGet fields (codes "username") = some (.str u) → pyStrip u ≠ [] →
        flatValue fields = some u) ∧
    (acceptedStr (dictGet fields (codes "username")) = none →
        ∀ v, dictGet fields (codes "value") = some (.str v) → pyStrip v ≠ [] →
        flatValue fields = some v) ∧
    (acceptedStr (dictGet fields (codes "username")) = none →
        acceptedStr (dictGet fields (codes "value")) = none →
        flatValue fields = none) := by
  refine ⟨?_, ?_, ?_, ?_, ?_⟩
  · intro first rest ffields v h1 h2 h3 h4
    subst h2
    simp [recordUsername, preferredValue, h1, acceptedStr, h3, h4]
  · intro hp
    simp [recordUsername, hp]
  · intro u h hne
    simp [flatValue, acceptedStr, h, hne]
  · intro hnone v h hne
    unfold flatValue
    rw [hnone]
    simp [acceptedStr, h, hne]
  · intro h1 h2
    simp [flatValue, h1, h2]

/-- Witness for `C3_record_username`: a record whose `string_list_data`
has a second element and a flat `username` field still takes the first
element's `value`. -/
theorem C3_record_username_witness :
    recordUsername (.obj [(codes "string_list_data",
        .arr [.obj [(codes "value", .str (codes "Alice"))], .num 7]),
        (codes "username", .str (codes "zzz"))])
      = some (codes "Alice") :=
  (C3_record_username _).1 (.obj [(codes "value", .str (codes "Alice"))])
    [.num 7] [(codes "value", .str (codes "Alice"))] (codes "Alice")
    rfl rfl rfl (by decide)

/-- A key whose value is not a JSON list is skipped by the probing
loop. -/
theorem probeKeys_cons_not_list (fields : List (List Nat × Json)) (k : List Nat)
    (ks : List (List Nat)) (h : listValued (dictGet fields k) = false) :
    probeKeys fields (k :: ks) = probeKeys fields ks := by
  cases hv : dictGet fields k with
  | none => simp [probeKeys, hv]
  | some j => cases j <;> simp_all [probeKeys, listValued]

/-- A key whose value is a JSON list is returned by the probing loop. -/
theorem probeKeys_cons_list (fields : List (List Nat × Json)) (k : List Nat)
    (ks : List (List Nat)) (l : List Json) (h : dictGet fields k = some (.arr l)) :
    probeKeys fields (k :: ks) = some l := by
  simp [probeKeys, h]

/-- When no probed key has a list value, probing fails. -/
theorem probeKeys_none (fields : List (List Nat × Json)) :
    ∀ ks : List (List Nat), (∀ k ∈ ks, listValued (dictGet fields k) = false) →
    probeKeys fields ks = none := by
  intro ks
  induction ks with
  | nil => intro _; rfl
  | cons k ks ih =>
    intro h
    rw [probeKeys_cons_not_list fields k ks (h k (by simp))]
    exact ih (fun k2 hk2 => h k2 (by simp [hk2]))

/-- On an object, a successful probe of the priority keys decides the
extractor's result. -/
theorem extract_candidates_obj_probe (fields : List (List Nat × Json))
    (l : List Json) (h : probeKeys fields commonKeys = some l) :
    extract_candidates (.obj fields) = l.filter Json.isDict := by
  simp [extract_candidates, h]

/-- An entry whose value is not a list is skipped by the fallback
scan. -/
theorem firstListValue_cons_not_list (k : List Nat) (v : Json)
    (rest : List (List Nat × Json)) (h : Json.isList v = false) :
    firstListValue ((k, v) :: rest) = firstListValue rest := by
  cases v <;> simp_all [firstListValue, Json.isList]

/-- The fallback scan returns the first list-valued entry in insertion
order. -/
theorem firstListValue_append (k : List Nat) (l : List Json) :
    ∀ pre post : List (List Nat × Json), (∀ p ∈ pre, Json.isList p.2 = false) →
    firstListValue (pre ++ (k, .arr l) :: post) = some l := by
  intro pre
  induction pre with
  | nil => intro post _; rfl
  | cons p pre ih =>
    intro post h
    rw [List.cons_append]
    rw [show p = (p.1, p.2) from rfl]
    rw [firstListValue_cons_not_list p.1 p.2 _ (h p (by simp))]
    exact ih post (fun q hq => h q (by simp [hq]))

/-- With no list-valued entry at all, the fallback scan fails. -/
theorem firstListValue_none :
    ∀ fields : List (List Nat × Json), (∀ p ∈ fields, Json.isList p.2 = false) →
    firstListValue fields = none := by
  intro fields
  induction fields with
  | nil => intro _; rfl
  | cons p fields ih =>
    intro h
    rw [show p = (p.1, p.2) from rfl]
    rw [firstListValue_cons_not_list p.1 p.2 _ (h p (by simp))]
    exact ih (fun q hq => h q (by simp [hq]))

/-- If no entry of an object holds a list, neither does any lookup. -/
theorem dictGet_not_list (fields : List (List Nat × Json))
    (h : ∀ p ∈ fields, Json.isList p.2 = false) (k : List Nat) :
    listValued (dictGet fields k) = false := by
  cases hv : dictGet fields k with
  | none => rfl
  | some j =>
    have hmem : ∃ p ∈ fields, p.2 = j := by
      unfold dictGet at hv
      cases hf : fields.find? (fun p => p.1 == k) with
      | none => simp [hf] at hv
      | some p =>
        simp [hf] at hv
        exact ⟨p, List.mem_of_find?_eq_some hf, hv⟩
    obtain ⟨p, hp, hj⟩ := hmem
    obtain ⟨k0, v0⟩ := p
    subst hj
    have h2 := h (k0, v0) hp
    cases v0 <;> simp_all [listValued, Json.isList]

/-- C4: on a mapping-shaped document the extractor probes
`relationships_following`, `relationships_followers`, `following`,
`followers` (exact keys) in that fixed order and returns the mapping
elements of the first whose value is a sequence — regardless of the
other entries of the object (in particular of sequence-valued keys that
occur earlier in its enumeration order). -/
theorem C4_priority_keys (fields : List (List Nat × Json)) :
    (∀ l, dictGet fields (codes "relationships_following") = some (.arr l) →
        extract_candidates (.obj fields) = l.filter Json.isDict) ∧
    (∀ l, listValued (dictGet fields (codes "relationships_following")) = false →
        dictGet fields (codes "relationships_followers") = some (.arr l) →
        extract_candidates (.obj fields) = l.filter Json.isDict) ∧
    (∀ l, listValued (dictGet fields (codes "relationships_following")) = false →
        listValued (dictGet fields (codes "relationships_followers")) = false →
        dictGet fields (codes "following") = some (.arr l) →
        extract_candidates (.obj fields) = l.filter Json.isDict) ∧
    (∀ l, listValued (dictGet fields (codes "relationships_following")) = false →
        listValued (dictGet fields (codes "relationships_followers")) = false →
        listValued (dictGet fields (codes "following")) = false →
        dictGet fields (codes "followers") = some (.arr l) →
        extract_candidates (.obj fields) = l.filter Json.isDict) := by
  refine ⟨?_, ?_, ?_, ?_⟩
  · intro l h1
    exact extract_candidates_obj_probe fields l (probeKeys_cons_list _ _ _ _ h1)
  · intro l n1 h2
    apply extract_candidates_obj_probe fields l
    rw [commonKeys, probeKeys_cons_not_list _ _ _ n1]
    exact probeKeys_cons_list _ _ _ _ h2
  · intro l n1 n2 h3
    apply extract_candidates_obj_probe fields l
    rw [commonKeys, probeKeys_cons_not_list _ _ _ n1, probeKeys_cons_not_list _ _ _ n2]
    exact probeKeys_cons_list _ _ _ _ h3
  · intro l n1 n2 n3 h4
    apply extract_candidates_obj_probe fields l
    rw [commonKeys, probeKeys_cons_not_list _ _ _ n1, probeKeys_cons_not_list _ _ _ n2,
      probeKeys_cons_not_list _ _ _ n3]
    exact probeKeys_cons_list _ _ _ _ h4

/-- Witness for `C4_priority_keys`: the priority key wins over an
earlier list-valued key, and the last priority key is reached when the
first three are absent. -/
theorem C4_priority_keys_witness :
    extract_candidates (.obj [(codes "zzz", .arr [.num 1]),
        (codes "relationships_following", .arr [.obj [], .num 2])]) = [.obj []] ∧
    extract_candidates (.obj [(codes "followers", .arr [.num 3, .obj []])])
      = [.obj []] :=
  ⟨((C4_priority_keys [(codes "zzz", .arr [.num 1]),
        (codes "relationships_following", .arr [.obj [], .num 2])]).1
      [.obj [], .num 2] rfl).trans rfl,
   ((C4_priority_keys [(codes "followers", .arr [.num 3, .obj []])]).2.2.2
      [.num 3, .obj []] rfl rfl rfl rfl).trans rfl⟩

/-- C5: on a sequence-shaped document the extractor returns exactly the
mapping elements, in their original order (the result is a sublist of
the document), silently dropping non-mapping elements. -/
theorem C5_list_document (items : List Json) :
    extract_candidates (.arr items) = items.filter Json.isDict ∧
    List.Sublist (extract_candidates (.arr items)) items ∧
    ∀ j, j ∈ extract_candidates (.arr items) ↔ j ∈ items ∧ Json.isDict j = true := by
  refine ⟨rfl, List.filter_sublist items, ?_⟩
  intro j
  simp [extract_candidates, List.mem_filter]

/-- C6: when no priority key of a mapping-shaped document has a
sequence value, the extractor falls back to the first sequence-valued
entry in the object's enumeration order (filtered to mappings); when
neither path finds a sequence — and on documents that are neither a
sequence nor a mapping — it returns the empty sequence (the embedding
is a total function: no error is ever raised). -/
theorem C6_fallback_and_silent :
    (∀ pre post k l,
        (∀ k2 ∈ commonKeys,
          listValued (dictGet (pre ++ (k, Json.arr l) :: post) k2) = false) →
        (∀ p ∈ pre, Json.isList p.2 = false) →
        extract_candidates (.obj (pre ++ (k, Json.arr l) :: post))
          = l.filter Json.isDict) ∧
    (∀ fields, (∀ p ∈ fields, Json.isList p.2 = false) →
        extract_candidates (.obj fields) = []) ∧
    extract_candidates .null = [] ∧
    (∀ b, extract_candidates (.bool b) = []) ∧
    (∀ n, extract_candidates (.num n) = []) ∧
    (∀ s, extract_candidates (.str s) = []) := by
  refine ⟨?_, ?_, rfl, fun b => rfl, fun n => rfl, fun s => rfl⟩
  · intro pre post k l hpri hpre
    have hp : probeKeys (pre ++ (k, Json.arr l) :: post) commonKeys = none :=
      probeKeys_none _ _ hpri
    have hf : firstListValue (pre ++ (k, Json.arr l) :: post) = some l :=
      firstListValue_append k l pre post hpre
    simp [extract_candidates, hp, hf]
  · intro fields h
    have hp : probeKeys fields commonKeys = none :=
      probeKeys_none _ _ (fun k2 _ => dictGet_not_list fields h k2)
    have hf : firstListValue fields = none := firstListValue_none fields h
    simp [extract_candidates, hp, hf]

/-- Witness for `C6_fallback_and_silent`: the fallback takes the first
list-valued entry; a mapping with no list value yields the empty
sequence. -/
theorem C6_fallback_and_silent_witness :
    extract_candidates (.obj [(codes "foo", .str (codes "x")),
        (codes "bar", .arr [.obj [], .num 1])]) = [.obj []] ∧
    extract_candidates (.obj [(codes "foo", .str (codes "x"))]) = [] :=
  ⟨(C6_fallback_and_silent.1 [(codes "foo", .str (codes "x"))] [] (codes "bar")
      [.obj [], .num 1] (by decide) (by decide)).trans rfl,
   C6_fallback_and_silent.2.1 [(codes "foo", .str (codes "x"))] (by decide)⟩

/-- A strictly sorted list with the same members as a finite set is its
ascending sort. -/
theorem sort_eq_of_sorted_mem (s : Finset (List Nat)) (l : List (List Nat))
    (hs : List.Sorted (· < ·) l) (hm : ∀ a, a ∈ s ↔ a ∈ l) :
    s.sort (· ≤ ·) = l := by
  apply List.eq_of_perm_of_sorted ?hp (Finset.sort_sorted _ _) hs.le_of_lt
  apply (List.perm_ext_iff_of_nodup (Finset.sort_nodup _ _) ?nd).2
  · intro a
    rw [Finset.mem_sort]
    exact hm a
  · exact hs.imp (fun h => ne_of_lt h)

/-- C7: the Differ returns exactly the set difference
following − followers, strictly ascending in the lexicographic order;
for following = {"a","b","c"} and followers = {"b"} the result is
["a","c"]. -/
theorem C7_differ (following followers : Finset (List Nat)) :
    List.Sorted (· < ·) (compute_not_following_back following followers) ∧
    (∀ u, u ∈ compute_not_following_back following followers ↔
        u ∈ following ∧ u ∉ followers) ∧
    compute_not_following_back {codes "a", codes "b", codes "c"} {codes "b"}
      = [codes "a", codes "c"] := by
  refine ⟨Finset.sort_sorted_lt _, ?_, ?_⟩
  · intro u
    unfold compute_not_following_back
    rw [Finset.mem_sort, Finset.mem_sdiff]
  · unfold compute_not_following_back
    apply sort_eq_of_sorted_mem
    · decide
    · intro a
      have hset : ({codes "a", codes "b", codes "c"} : Finset (List Nat)) \ {codes "b"}
          = {codes "a", codes "c"} := by decide
      rw [hset]
      simp

/-- C8: end-to-end on the spec's example documents: following loads to
{"alice","bob"}, followers to {"bob"}, and the computed rows are
["alice"]. -/
theorem C8_end_to_end :
    load_usernames (.arr [
        .obj [(codes "string_list_data", .arr [.obj [(codes "value", .str (codes "Alice"))]])],
        .obj [(codes "string_list_data", .arr [.obj [(codes "value", .str (codes "bob"))]])]])
      = {codes "alice", codes "bob"} ∧
    load_usernames (.arr [
        .obj [(codes "string_list_data", .arr [.obj [(codes "value", .str (codes "BOB"))]])]])
      = {codes "bob"} ∧
    compute_not_following_back
        (load_usernames (.arr [
          .obj [(codes "string_list_data", .arr [.obj [(codes "value", .str (codes "Alice"))]])],
          .obj [(codes "string_list_data", .arr [.obj [(codes "value", .str (codes "bob"))]])]]))
        (load_usernames (.arr [
          .obj [(codes "string_list_data", .arr [.obj [(codes "value", .str (codes "BOB"))]])]]))
      = [codes "alice"] := by
  refine ⟨by decide, by decide, ?_⟩
  have hA : load_usernames (.arr [
      .obj [(codes "string_list_data", .arr [.obj [(codes "value", .str (codes "Alice"))]])],
      .obj [(codes "string_list_data", .arr [.obj [(codes "value", .str (codes "bob"))]])]])
      = {codes "alice", codes "bob"} := by decide
  have hB : load_usernames (.arr [
      .obj [(codes "string_list_data", .arr [.obj [(codes "value", .str (codes "BOB"))]])]])
      = {codes "bob"} := by decide
  rw [hA, hB]
  unfold compute_not_following_back
  apply sort_eq_of_sorted_mem
  · decide
  · intro a
    have hset : ({codes "alice", codes "bob"} : Finset (List Nat)) \ {codes "bob"}
        = {codes "alice"} := by decide
    rw [hset]
    simp

/-- C9: an absent input file aborts the run with an error naming the
missing file and no output is produced (`mainModel` returns
`Except.error`, which models the non-zero `SystemExit` before anything
is processed or written), for either missing file. -/
theorem C9_missing_input_aborts :
    (∀ g, mainModel none g = .error missingFollowersMsg) ∧
    (∀ f, mainModel (some f) none = .error missingFollowingMsg) ∧
    (∃ pre post, missingFollowersMsg = pre ++ codes "followers.json" ++ post) ∧
    (∃ pre post, missingFollowingMsg = pre ++ codes "following.json" ++ post) :=
  ⟨fun _ => rfl, fun _ => rfl,
   ⟨codes "Missing ", codes ". Put it next to this script.", by decide⟩,
   ⟨codes "Missing ", codes ". Put it next to this script.", by decide⟩⟩

/-- C10: the string "@" passes the non-empty-trimmed acceptance check
yet normalizes to the empty string, so `load_usernames` can return a
set containing the empty username. -/
theorem C10_empty_username :
    pyStrip (codes "@") ≠ [] ∧
    normalize_username (codes "@") = [] ∧
    load_usernames (.arr [.obj [(codes "string_list_data",
        .arr [.obj [(codes "value", .str (codes "@"))]])]])
      = {([] : List Nat)} :=
  ⟨by decide, by decide, by decide⟩
